import Mathlib

/-!
Shallow embedding of `coloredlogcat.py`, a streaming formatter for `adb logcat`
output.  Strings from the stream are modelled as `List Char`; Python `int`s as
`Int`/`Nat`; the mutable globals (`LAST_USED`, `KNOWN_TAGS`, `timeOutputted`,
`linenumber`) as explicit state records threaded through the step functions.
The `while` loop of `indent_wrap` is modelled with an explicit fuel parameter:
`none` means the fuel ran out, and a result that is `none` for every fuel is a
non-terminating loop.
-/

namespace ColoredLogcat

/-! ## Colors (`BLACK, RED, ... = range(8)`, line 48) -/

def BLACK : Nat := 0

def RED : Nat := 1

def GREEN : Nat := 2

def YELLOW : Nat := 3

def BLUE : Nat := 4

def MAGENTA : Nat := 5

def CYAN : Nat := 6

def WHITE : Nat := 7

/-! ## `format` (lines 50-62): ANSI escape sequence builder -/

/-- `format(fg, bg, bright, bold, dim, reset)` from the source.  Emits
`"\x1b[" + ";".join(codes) + "m"` with the codes accumulated in source order:
`"0"` if `reset`, else `3<fg>`, then `4<bg>` (or `10<bg>` when `bright`),
then `"1"` if `bold` else `"2"` if `dim` else `"22"`. -/
def format (fg bg : Option Nat) (bright bold dim reset : Bool) : List Char :=
  let codes : List String :=
    if reset then ["0"]
    else
      (match fg with
        | some f => ["3" ++ Nat.repr f]
        | none => [])
      ++ (match bg with
        | some b => [(if bright then "10" else "4") ++ Nat.repr b]
        | none => [])
      ++ (if bold then ["1"] else if dim then ["2"] else ["22"])
  ("\x1b[" ++ String.intercalate ";" codes ++ "m").data

/-! ## Python string primitives used by the source -/

/-- The characters Python 2 `str.strip()` removes. -/
def isPySpace (c : Char) : Bool :=
  c == ' ' || c == '\t' || c == '\n' || c == '\r' || c == '\x0b' || c == '\x0c'

/-- Python `s.strip()`: drop whitespace from both ends. -/
def pyStrip (l : List Char) : List Char :=
  ((l.dropWhile isPySpace).reverse.dropWhile isPySpace).reverse

/-- Python `s.ljust(w)` with the default space fill. -/
def pyLjust (l : List Char) (w : Nat) : List Char :=
  l ++ List.replicate (w - l.length) ' '

/-- Python `s.rjust(w)` with the default space fill. -/
def pyRjust (l : List Char) (w : Nat) : List Char :=
  List.replicate (w - l.length) ' ' ++ l

/-- Python `s.center(w)`: CPython computes `marg = w - len(s)` and puts
`marg / 2 + (marg & w & 1)` fill characters on the left. -/
def pyCenter (l : List Char) (w : Nat) : List Char :=
  if w ≤ l.length then l
  else
    let marg := w - l.length
    let left := marg / 2 + (marg &&& w &&& 1)
    List.replicate left ' ' ++ l ++ List.replicate (marg - left) ' '

/-- Python `s[-n:]`: the last `n` characters (the whole string when shorter). -/
def lastChars (n : Nat) (l : List Char) : List Char :=
  l.drop (l.length - n)

/-- Normalize one Python slice index: negative indices count from the end and
are clamped at 0; non-negative indices are clamped at the length. -/
def sliceIdx (i : Int) (n : Nat) : Nat :=
  if i < 0 then ((n : Int) + i).toNat else min i.toNat n

/-- Python `s[a:b]` for `Int` indices. -/
def pySlice (a b : Int) (l : List Char) : List Char :=
  (l.take (sliceIdx b l.length)).drop (sliceIdx a l.length)

/-! ## `indent_wrap` (lines 65-75)

The source loop is

```
wrap_area = width - indent
current = 0
while current < len(message):
    next = min(current + wrap_area, len(message))
    messagebuf.write(message[current:next])
    if next < len(message):
        messagebuf.write("\n%s" % (" " * indent))
    current = next
```

modelled with fuel counting the remaining permitted iterations.  `none` means
the fuel was exhausted while the loop guard still held; since each terminating
run needs at most `len(message)` iterations (proved below), calling with fuel
`message.length + 1` returns `none` exactly when the Python loop diverges. -/
/-- `next = min(current + wrap_area, len(message))` of the loop body. -/
def nextIdx (current wa : Int) (len : Nat) : Int :=
  min (current + wa) (len : Int)

def indentWrapAux (wa : Int) (ind : Nat) (msg : List Char) : Int → Nat → Option (List Char)
  | current, 0 => if current < (msg.length : Int) then none else some []
  | current, fuel + 1 =>
    if current < (msg.length : Int) then
      match indentWrapAux wa ind msg (nextIdx current wa msg.length) fuel with
      | none => none
      | some rest =>
        some (pySlice current (nextIdx current wa msg.length) msg
          ++ (if nextIdx current wa msg.length < (msg.length : Int)
              then '\n' :: List.replicate ind ' ' else [])
          ++ rest)
    else some []

/-- `indent_wrap(message, indent, width)`; the extra `fuel` argument bounds the
number of loop iterations as explained above. -/
def indent_wrap (message : List Char) (indent width : Nat) (fuel : Nat) : Option (List Char) :=
  indentWrapAux ((width : Int) - (indent : Int)) indent message 0 fuel

/-! ## Color allocator state (lines 78-94) -/

/-- Association-list lookup keyed by decidable equality; models Python `dict`
indexing / `in` tests for `KNOWN_TAGS` and `TAGTYPES` (new bindings are consed
in front, and only ever for keys that are absent, so shadowing never arises). -/
def assocLookup {α β : Type} [DecidableEq α] : List (α × β) → α → Option β
  | [], _ => none
  | (k, v) :: rest, a => if a = k then some v else assocLookup rest a

/-- The mutable globals of the color allocator: `KNOWN_TAGS` and `LAST_USED`. -/
structure PaletteState where
  knownTags : List (String × Nat)
  lastUsed : List Nat
deriving DecidableEq, Repr

/-- The initial value of `LAST_USED` (line 78): the seven non-black colors. -/
def ringColors : List Nat := [RED, GREEN, YELLOW, BLUE, MAGENTA, CYAN, WHITE]

/-- Initial palette: `LAST_USED` (line 78) and the seeded `KNOWN_TAGS`
(lines 79-84). -/
def initPalette : PaletteState :=
  { knownTags := [("dalvikvm", BLUE), ("Process", BLUE),
                  ("ActivityManager", CYAN), ("ActivityThread", CYAN)],
    lastUsed := ringColors }

/-- `allocate_color(tag)` (lines 86-94):

```
if not tag in KNOWN_TAGS:
    KNOWN_TAGS[tag] = LAST_USED[0]
color = KNOWN_TAGS[tag]
LAST_USED.remove(color)
LAST_USED.append(color)
return color
```

`LAST_USED[0]` is modelled with `headD _ 0`; in the program `LAST_USED` is
never empty (it is a permutation of the 7 ring colors in every reachable
state, proved below), so the default is never consulted.  `list.remove`
removes the first occurrence of the value, which is `List.erase`; the
`ValueError` branch of `remove` is unreachable for the same reason. -/
def allocate_color (tag : String) (s : PaletteState) : Nat × PaletteState :=
  let knownTags :=
    if (assocLookup s.knownTags tag).isSome then s.knownTags
    else (tag, s.lastUsed.headD 0) :: s.knownTags
  let color := (assocLookup knownTags tag).getD 0
  (color, { knownTags := knownTags, lastUsed := (s.lastUsed.erase color) ++ [color] })

/-- Run `allocate_color` over a list of tags, collecting the returned colors. -/
def allocRun (s : PaletteState) : List String → List Nat
  | [] => []
  | t :: ts => (allocate_color t s).1 :: allocRun (allocate_color t s).2 ts

/-- Run `allocate_color` over a list of tags, keeping only the final state. -/
def applyAllocs : List String → PaletteState → PaletteState
  | [], s => s
  | t :: ts, s => applyAllocs ts (allocate_color t s).2

/-- The colors handed out by `n` consecutive fresh-tag allocations: each takes
the head of the recency list and rotates it to the back. -/
def rotHeads (l : List Nat) : Nat → List Nat
  | 0 => []
  | n + 1 =>
    match l with
    | [] => []
    | c :: rest => c :: rotHeads (rest ++ [c]) n

/-- Palette states reachable from the initial globals by `allocate_color`. -/
inductive Reachable : PaletteState → Prop
  | init : Reachable initPalette
  | step {s : PaletteState} (t : String) : Reachable s → Reachable (allocate_color t s).2

/-! ## Layout constants (lines 101-114) -/

def NUMBER_WIDTH : Nat := 6

def TAGTYPE_WIDTH : Nat := 3

def TAG_WIDTH : Nat := 25

/-- Source comment: `8 or -1`; the checked-in value is 8. -/
def PROCESS_WIDTH : Nat := 8

def TIME_WIDTH : Nat := 21

def HEADER_SIZE : Nat :=
  1 + NUMBER_WIDTH + TAGTYPE_WIDTH + 1 + TAG_WIDTH + 1 + PROCESS_WIDTH + 1

/-- `TAGTYPES` (lines 108-114): severity letter to colored badge,
`"%s%s%s " % (format(fg, bg), letter.center(TAGTYPE_WIDTH), format(reset))`. -/
def TAGTYPES : List (Char × List Char) :=
  [('V', format (some WHITE) (some BLACK) false false false false
          ++ pyCenter ['V'] TAGTYPE_WIDTH ++ format none none false false false true ++ [' ']),
   ('D', format (some BLACK) (some BLUE) false false false false
          ++ pyCenter ['D'] TAGTYPE_WIDTH ++ format none none false false false true ++ [' ']),
   ('I', format (some BLACK) (some GREEN) false false false false
          ++ pyCenter ['I'] TAGTYPE_WIDTH ++ format none none false false false true ++ [' ']),
   ('W', format (some BLACK) (some YELLOW) false false false false
          ++ pyCenter ['W'] TAGTYPE_WIDTH ++ format none none false false false true ++ [' ']),
   ('E', format (some BLACK) (some RED) false false false false
          ++ pyCenter ['E'] TAGTYPE_WIDTH ++ format none none false false false true ++ [' '])]

/-! ## The two record regexes (lines 117-118)

`retagDefault = ^([A-Z])/([^\(]+)\(([^\)]+)\): (.*)$`
`retagTime    = ^([\-:\. 0-9]+) ([A-Z])/([^\(]+)\(([^\)]+)\): (.*)$`

Both patterns are deterministic once greediness is taken into account:

* `([^\(]+)\(` — the negated class cannot match `(`, so the group is exactly
  the maximal run of non-`(` characters and the next character must be `(`;
  shorter (backtracked) matches would place a non-`(` character where the
  literal `(` is required.  Likewise `([^\)]+)\)`.
* In `([\-:\. 0-9]+) ([A-Z])/`, the class excludes `A`-`Z` and contains the
  space, so with `R` the maximal class run the only candidate split puts the
  severity letter at the first non-class position: the group must be
  `R` minus its final character, that final character must be the space, and
  the severity letter follows `R`.
* `(.*)$` under Python 2 `re`: `.` matches anything but `\n`, and `$` matches
  at the end of the string or just before a terminating `\n`; a line kept by
  `readline` therefore matches with the group excluding the final newline.
-/

/-- The character class `[\-:\. 0-9]` of `retagTime`. -/
def timeClass (c : Char) : Bool :=
  c == '-' || c == ':' || c == '.' || c == ' ' || c.isDigit

/-- `(.*)$` in Python 2 `re`: the whole remainder if it has no newline, or the
remainder minus a single terminating newline; no match otherwise. -/
def dotStarEnd (l : List Char) : Option (List Char) :=
  let body := l.takeWhile (fun c => c ≠ '\n')
  match l.dropWhile (fun c => c ≠ '\n') with
  | [] => some body
  | ['\n'] => some body
  | _ => none

/-- The common suffix `([^\(]+)\(([^\)]+)\): (.*)$` of both regexes, returning
`(tag, owner, message)`. -/
def matchCore (l : List Char) : Option (List Char × List Char × List Char) :=
  let tag := l.takeWhile (fun c => c ≠ '(')
  match l.dropWhile (fun c => c ≠ '(') with
  | '(' :: r2 =>
    if tag = [] then none
    else
      let owner := r2.takeWhile (fun c => c ≠ ')')
      match r2.dropWhile (fun c => c ≠ ')') with
      | ')' :: ':' :: ' ' :: r3 =>
        if owner = [] then none
        else
          match dotStarEnd r3 with
          | some msg => some (tag, owner, msg)
          | none => none
      | _ => none
  | _ => none

/-- `retagDefault.match(line)`, returning the groups
`(tagtype, tag, owner, message)`. -/
def matchBrief (l : List Char) : Option (Char × List Char × List Char × List Char) :=
  match l with
  | sv :: '/' :: rest =>
    if 'A' ≤ sv ∧ sv ≤ 'Z' then
      match matchCore rest with
      | some (tg, ow, ms) => some (sv, tg, ow, ms)
      | none => none
    else none
  | _ => none

/-- `retagTime.match(line)`, returning the groups
`(time, tagtype, tag, owner, message)`. -/
def matchTime (l : List Char) : Option (List Char × Char × List Char × List Char × List Char) :=
  let run := l.takeWhile timeClass
  match l.dropWhile timeClass with
  | sv :: '/' :: rest =>
    if 2 ≤ run.length ∧ run.getLast? = some ' ' ∧ 'A' ≤ sv ∧ sv ≤ 'Z' then
      match matchCore rest with
      | some (tg, ow, ms) => some (run.dropLast, sv, tg, ow, ms)
      | none => none
    else none
  | _ => none

/-! ## Stream driver (lines 121, 144-208) -/

/-- The groups of one matched line; `timeOpt` is `some` exactly for a
`retagTime` match (which has the extra leading group). -/
structure ParseRes where
  timeOpt : Option (List Char)
  tagtype : Char
  tag : List Char
  owner : List Char
  message : List Char
deriving DecidableEq, Repr

/-- Lines 152-160: in time mode only `retagTime` is tried; in brief mode
`retagDefault` is tried first and on failure `retagTime`, a success of which
permanently sets `timeOutputted`.  Returns the new flag and the match. -/
def parseLine (timeOutputted : Bool) (line : List Char) : Bool × Option ParseRes :=
  if timeOutputted then
    (true, (matchTime line).map fun g => ⟨some g.1, g.2.1, g.2.2.1, g.2.2.2.1, g.2.2.2.2⟩)
  else
    match matchBrief line with
    | some g => (false, some ⟨none, g.1, g.2.1, g.2.2.1, g.2.2.2⟩)
    | none =>
      match matchTime line with
      | some g => (true, some ⟨some g.1, g.2.1, g.2.2.1, g.2.2.2.1, g.2.2.2.2⟩)
      | none => (false, none)

/-- The driver's mutable state: `timeOutputted`, `linenumber` and the color
allocator globals. -/
structure DState where
  timeOutputted : Bool
  linenumber : Nat
  palette : PaletteState
deriving DecidableEq, Repr

/-- What one loop iteration does to the output stream:
* `contOut o` — `o` was written, the loop continues;
* `stopOut o` — `o` was written and the loop `break`s (`len(line) == 0`);
* `stopSilent` — nothing written, the loop `break`s (unknown severity);
* `hang` — `indent_wrap` never terminates, nothing further happens. -/
inductive StepKind
  | contOut (out : List Char)
  | stopOut (out : List Char)
  | stopSilent
  | hang
deriving DecidableEq, Repr

/-- `str("[" + time + "] ").ljust(TIME_WIDTH)` when the time group is present
(line 191), nothing otherwise.  In the source both the field and the
`headerSize` bump are gated on `timeOutputted`; at every call site the flag is
true exactly when the match carried a time group, so gating on `timeOpt` is
equivalent. -/
def timeFieldOf : Option (List Char) → List Char
  | some t => pyLjust ('[' :: (t ++ [']', ' '])) TIME_WIDTH
  | none => []

/-- `headerSize` (lines 194-196): `HEADER_SIZE`, plus `TIME_WIDTH` in time
mode. -/
def headerSizeOf : Option (List Char) → Nat
  | some _ => HEADER_SIZE + TIME_WIDTH
  | none => HEADER_SIZE

/-- Lines 168-205: processing of one matched line.  The line number is taken
and incremented, and the tag color allocated, before the severity lookup, so
both effects survive an unknown-severity `break`.  `RULES` is empty, so the
substitution loop of lines 200-202 is the identity and is omitted.  The
written bytes are the rendered buffer plus the newline appended by `print`. -/
def processMatch (w : Nat) (ds : DState) (r : ParseRes) : DState × StepKind :=
  let tagStripped := pyStrip r.tag
  let alloc := allocate_color (String.mk tagStripped) ds.palette
  let ds' : DState := { ds with linenumber := ds.linenumber + 1, palette := alloc.2 }
  match assocLookup TAGTYPES r.tagtype with
  | none => (ds', StepKind.stopSilent)
  | some badge =>
    match indent_wrap r.message (headerSizeOf r.timeOpt) w (r.message.length + 1) with
    | none => (ds', StepKind.hang)
    | some wrapped =>
      let out :=
        (' ' :: pyLjust (Nat.repr ds.linenumber).data NUMBER_WIDTH)
        ++ (if 0 < PROCESS_WIDTH then
              format (some BLACK) (some BLACK) true false false false
              ++ pyCenter (pyStrip r.owner) PROCESS_WIDTH
              ++ format none none false false false true ++ [' ']
            else [])
        ++ (format (some alloc.1) none false false false false
            ++ pyRjust (lastChars TAG_WIDTH tagStripped) TAG_WIDTH ++ [' ']
            ++ format none none false false false true)
        ++ badge
        ++ timeFieldOf r.timeOpt
        ++ wrapped
      (ds', StepKind.contOut (out ++ ['\n']))

/-- One iteration of the `while True` loop (lines 146-208) on a line already
read.  An unmatched line is passed to `print` unchanged (plus the newline
`print` appends), and the loop `break`s afterwards iff the line was empty. -/
def step (w : Nat) (ds : DState) (line : List Char) : DState × StepKind :=
  let p := parseLine ds.timeOutputted line
  match p.2 with
  | some r => processMatch w { ds with timeOutputted := p.1 } r
  | none =>
    ({ ds with timeOutputted := p.1 },
      if line = [] then StepKind.stopOut (line ++ ['\n'])
      else StepKind.contOut (line ++ ['\n']))

/-- How a run over a finite list of input lines ended. -/
inductive RunEnd
  | ranOut (ds : DState)
  | stopped (ds : DState)
  | hung (ds : DState)
deriving DecidableEq, Repr

/-- Drive `step` over a list of input lines, collecting everything written to
standard output. -/
def runDriver (w : Nat) (ds : DState) : List (List Char) → List (List Char) × RunEnd
  | [] => ([], RunEnd.ranOut ds)
  | l :: ls =>
    match step w ds l with
    | (ds', StepKind.contOut o) =>
      let rest := runDriver w ds' ls
      (o :: rest.1, rest.2)
    | (ds', StepKind.stopOut o) => ([o], RunEnd.stopped ds')
    | (ds', StepKind.stopSilent) => ([], RunEnd.stopped ds')
    | (ds', StepKind.hang) => ([], RunEnd.hung ds')

/-- Driver state at the top of the loop in pipe mode (stdin not a tty):
`timeOutputted = False` (line 121), `linenumber = 1` (line 144), seeded
palette.  (In spawn mode line 135 sets `timeOutputted = True` before the
loop; the auto-detection claims concern the pipe path.) -/
def initDriver : DState :=
  { timeOutputted := false, linenumber := 1, palette := initPalette }

/-! ## Specification-side helpers for the wrap claims -/

/-- The first `k` chunks of `W` consecutive characters of a message. -/
def chunksOfK (W : Nat) : Nat → List Char → List (List Char)
  | 0, _ => []
  | k + 1, l => l.take W :: chunksOfK W k (l.drop W)

/-- The continuation-line separator: a newline and `ind` spaces. -/
def wrapSep (ind : Nat) : List Char :=
  '\n' :: List.replicate ind ' '

/-- All chunks of a tail, each preceded by the separator. -/
def joinTail (ind : Nat) : List (List Char) → List Char
  | [] => []
  | c :: cs => wrapSep ind ++ c ++ joinTail ind cs

/-- Chunks joined so that every chunk after the first is preceded by a newline
and `ind` spaces, with no trailing newline. -/
def joinIndent (ind : Nat) : List (List Char) → List Char
  | [] => []
  | c :: cs => c ++ joinTail ind cs

/-! ## Lemmas about the color allocator -/

theorem assocLookup_cons_ne {α β : Type} [DecidableEq α] {k a : α} {v : β}
    {l : List (α × β)} (h : a ≠ k) :
    assocLookup ((k, v) :: l) a = assocLookup l a := by
  simp [assocLookup, h]

theorem assocLookup_mem {α β : Type} [DecidableEq α] {l : List (α × β)} {k : α} {v : β}
    (h : assocLookup l k = some v) : (k, v) ∈ l := by
  induction l with
  | nil => simp [assocLookup] at h
  | cons p rest ih =>
    obtain ⟨k', v'⟩ := p
    by_cases hk : k = k'
    · subst hk
      simp [assocLookup] at h
      simp [h]
    · rw [assocLookup_cons_ne hk] at h
      exact List.mem_cons_of_mem _ (ih h)

/-- A tag absent from `KNOWN_TAGS` receives the head of `LAST_USED`, which is
rotated to the back, and its binding is recorded. -/
theorem alloc_fresh {t : String} {s : PaletteState} {c : Nat} {rest : List Nat}
    (h : assocLookup s.knownTags t = none) (hl : s.lastUsed = c :: rest) :
    allocate_color t s = (c, ⟨(t, c) :: s.knownTags, rest ++ [c]⟩) := by
  simp [allocate_color, h, hl, assocLookup]

/-- A tag present in `KNOWN_TAGS` keeps its color; the color is rotated to the
back of `LAST_USED`. -/
theorem alloc_known {t : String} {s : PaletteState} {c : Nat}
    (h : assocLookup s.knownTags t = some c) :
    allocate_color t s = (c, ⟨s.knownTags, s.lastUsed.erase c ++ [c]⟩) := by
  simp [allocate_color, h]

/-- A run of pairwise-distinct, never-seen tags reads off the successive heads
of the recency list, rotating it one position per allocation. -/
theorem allocRun_fresh : ∀ (ts : List String) (s : PaletteState), ts.Nodup →
    (∀ t ∈ ts, assocLookup s.knownTags t = none) → s.lastUsed ≠ [] →
    allocRun s ts = rotHeads s.lastUsed ts.length := by
  intro ts
  induction ts with
  | nil => intro s _ _ _; rfl
  | cons t ts ih =>
    intro s hnd hfresh hne
    obtain ⟨c, rest, hl⟩ : ∃ c rest, s.lastUsed = c :: rest := by
      cases hc : s.lastUsed with
      | nil => exact absurd hc hne
      | cons c rest => exact ⟨c, rest, rfl⟩
    have hf := alloc_fresh (hfresh t (List.mem_cons_self t ts)) hl
    have hstep : allocRun s (t :: ts) = c :: allocRun ⟨(t, c) :: s.knownTags, rest ++ [c]⟩ ts := by
      rw [allocRun, hf]
    have hrot : rotHeads s.lastUsed (t :: ts).length
        = c :: rotHeads (rest ++ [c]) ts.length := by
      rw [hl]
      simp [rotHeads]
    rw [hstep, hrot]
    congr 1
    apply ih
    · exact (List.nodup_cons.mp hnd).2
    · intro t' ht'
      have hne' : t' ≠ t := fun he => (List.nodup_cons.mp hnd).1 (he ▸ ht')
      rw [show (PaletteState.mk ((t, c) :: s.knownTags) (rest ++ [c])).knownTags
            = (t, c) :: s.knownTags from rfl]
      rw [assocLookup_cons_ne hne']
      exact hfresh t' (List.mem_cons_of_mem _ ht')
    · simp

/-- Claim C1: starting from the initial palette, allocating colors for 8
distinct tags, none previously seen and none among the seeded well-known
tags, gives the 8th tag the same color that the 1st tag received. -/
theorem c1_lru_eighth_reuses_first (t1 t2 t3 t4 t5 t6 t7 t8 : String)
    (hnd : ([t1, t2, t3, t4, t5, t6, t7, t8] : List String).Nodup)
    (hfresh : ∀ t ∈ [t1, t2, t3, t4, t5, t6, t7, t8],
      assocLookup initPalette.knownTags t = none) :
    (allocRun initPalette [t1, t2, t3, t4, t5, t6, t7, t8])[7]?
      = (allocRun initPalette [t1, t2, t3, t4, t5, t6, t7, t8])[0]? := by
  rw [allocRun_fresh _ _ hnd hfresh (by simp [initPalette, ringColors])]
  rw [show ([t1, t2, t3, t4, t5, t6, t7, t8] : List String).length = 8 from rfl]
  decide

/-- Witness for C1 at eight concrete fresh tags. -/
theorem c1_lru_eighth_reuses_first_witness :
    (allocRun initPalette ["a", "b", "c", "d", "e", "f", "g", "h"])[7]?
      = (allocRun initPalette ["a", "b", "c", "d", "e", "f", "g", "h"])[0]? :=
  c1_lru_eighth_reuses_first "a" "b" "c" "d" "e" "f" "g" "h" (by decide) (by decide)

/-- The reachable-state invariant: `LAST_USED` is a permutation of the seven
ring colors, and every color recorded in `KNOWN_TAGS` is a ring color. -/
theorem palette_inv {s : PaletteState} (h : Reachable s) :
    s.lastUsed.Perm ringColors ∧ ∀ p ∈ s.knownTags, p.2 ∈ ringColors := by
  induction h with
  | init => exact ⟨List.Perm.refl _, by decide⟩
  | @step s t _ ih =>
    obtain ⟨hperm, hvals⟩ := ih
    rcases hopt : assocLookup s.knownTags t with _ | c
    · have hne : s.lastUsed ≠ [] := by
        intro h0
        have hlen := hperm.length_eq
        rw [h0] at hlen
        simp [ringColors] at hlen
      obtain ⟨c0, rest, hl⟩ : ∃ c0 rest, s.lastUsed = c0 :: rest := by
        cases hc : s.lastUsed with
        | nil => exact absurd hc hne
        | cons c0 rest => exact ⟨c0, rest, rfl⟩
      rw [alloc_fresh hopt hl]
      rw [hl] at hperm
      have hc0 : c0 ∈ ringColors := hperm.mem_iff.mp (List.mem_cons_self _ _)
      constructor
      · exact (List.perm_append_singleton _ _).trans hperm
      · intro p hp
        rcases List.mem_cons.mp hp with h | h
        · rw [h]; exact hc0
        · exact hvals p h
    · rw [alloc_known hopt]
      refine ⟨?_, hvals⟩
      have hc : c ∈ ringColors := hvals _ (assocLookup_mem hopt)
      have hcl : c ∈ s.lastUsed := hperm.mem_iff.mpr hc
      exact ((List.perm_append_singleton _ _).trans
        (List.perm_cons_erase hcl).symm).trans hperm

/-- Claim C2: in every palette state reachable from the initial one by
`allocate_color` calls, `LAST_USED` contains each of the 7 non-black colors
exactly once (it is a permutation of the initial ring). -/
theorem c2_ring_permutation (s : PaletteState) (h : Reachable s) :
    s.lastUsed.Perm ringColors :=
  (palette_inv h).1

/-- Witness for C2 at the initial state. -/
theorem c2_ring_permutation_witness : initPalette.lastUsed.Perm ringColors :=
  c2_ring_permutation initPalette Reachable.init

/-- Claim C3 counterexample: the claim that a never-seen tag is never assigned
a seed's pinned color fails.  From the initial state, allocating the fresh
tags "a", "b", "c" reaches a state in which the fresh tag "d" is assigned
BLUE, the very color pinned to the seed "dalvikvm". -/
theorem c3_pinned_colors_counterexample :
    Reachable (applyAllocs ["a", "b", "c"] initPalette)
    ∧ assocLookup (applyAllocs ["a", "b", "c"] initPalette).knownTags "d" = none
    ∧ (allocate_color "d" (applyAllocs ["a", "b", "c"] initPalette)).1 = BLUE
    ∧ assocLookup initPalette.knownTags "dalvikvm" = some BLUE := by
  refine ⟨?_, by decide, by decide, by decide⟩
  exact Reachable.step "c" (Reachable.step "b" (Reachable.step "a" Reachable.init))

/-- Claim C3, amended: the seeds' pinned colors BLUE and CYAN are members of
the rotating recency ring, so a brand-new tag can receive one of them; what
holds is that a new tag always receives a member of the 7-color ring — in
particular never BLACK, the only color outside it. -/
theorem c3_pinned_colors_amended :
    (∀ (s : PaletteState) (t : String), Reachable s →
      assocLookup s.knownTags t = none →
      (allocate_color t s).1 ∈ ringColors ∧ (allocate_color t s).1 ≠ BLACK)
    ∧ BLUE ∈ initPalette.lastUsed ∧ CYAN ∈ initPalette.lastUsed := by
  refine ⟨?_, by decide, by decide⟩
  intro s t hs hnone
  have hperm := (palette_inv hs).1
  have hne : s.lastUsed ≠ [] := by
    intro h0
    have hlen := hperm.length_eq
    rw [h0] at hlen
    simp [ringColors] at hlen
  obtain ⟨c0, rest, hl⟩ : ∃ c0 rest, s.lastUsed = c0 :: rest := by
    cases hc : s.lastUsed with
    | nil => exact absurd hc hne
    | cons c0 rest => exact ⟨c0, rest, rfl⟩
  have h1 : (allocate_color t s).1 = c0 := by rw [alloc_fresh hnone hl]
  rw [h1]
  rw [hl] at hperm
  have hc0 : c0 ∈ ringColors := hperm.mem_iff.mp (List.mem_cons_self _ _)
  refine ⟨hc0, ?_⟩
  intro hb
  rw [hb] at hc0
  exact absurd hc0 (by decide)

/-- Witness for the amended C3 at the initial state and a concrete fresh tag. -/
theorem c3_pinned_colors_amended_witness :
    (allocate_color "x" initPalette).1 ∈ ringColors
    ∧ (allocate_color "x" initPalette).1 ≠ BLACK :=
  c3_pinned_colors_amended.1 initPalette "x" Reachable.init (by decide)

/-- `allocate_color` never changes an existing `KNOWN_TAGS` binding. -/
theorem allocate_preserves {k t : String} {c : Nat} {s : PaletteState}
    (h : assocLookup s.knownTags k = some c) :
    assocLookup ((allocate_color t s).2).knownTags k = some c := by
  rcases hopt : assocLookup s.knownTags t with _ | c'
  · have hkt : k ≠ t := by
      intro he
      rw [← he, h] at hopt
      exact Option.noConfusion hopt
    simp only [allocate_color, hopt, Option.isSome_none, Bool.false_eq_true, if_false]
    rw [assocLookup_cons_ne hkt]
    exact h
  · simp [allocate_color, hopt, h]

/-- After `allocate_color t`, the tag `t` is bound to the returned color. -/
theorem allocate_self (t : String) (s : PaletteState) :
    assocLookup ((allocate_color t s).2).knownTags t = some (allocate_color t s).1 := by
  rcases hopt : assocLookup s.knownTags t with _ | c
  · simp [allocate_color, hopt, assocLookup]
  · simp [allocate_color, hopt]

/-- A tag already bound in `KNOWN_TAGS` gets back its recorded color. -/
theorem allocate_of_known {t : String} {c : Nat} {s : PaletteState}
    (h : assocLookup s.knownTags t = some c) : (allocate_color t s).1 = c := by
  simp [allocate_color, h]

/-- Existing bindings survive any sequence of further allocations. -/
theorem applyAllocs_preserves {k : String} {c : Nat} : ∀ (ts : List String) (s : PaletteState),
    assocLookup s.knownTags k = some c →
    assocLookup (applyAllocs ts s).knownTags k = some c := by
  intro ts
  induction ts with
  | nil => intro s h; exact h
  | cons t ts ih => intro s h; exact ih _ (allocate_preserves h)

/-- Claim C4: the color returned by the first `allocate_color t` is returned
again by any later `allocate_color t`, whatever other tags are processed in
between — the tag-to-color mapping never changes within a run. -/
theorem c4_color_stability (t : String) (s : PaletteState) (ts : List String) :
    (allocate_color t (applyAllocs ts (allocate_color t s).2)).1 = (allocate_color t s).1 :=
  allocate_of_known (applyAllocs_preserves ts _ (allocate_self t s))

/-! ## Lemmas about `indent_wrap` -/

theorem sliceIdx_natCast {c n : Nat} (h : c ≤ n) : sliceIdx (c : Int) n = c := by
  unfold sliceIdx
  rw [if_neg (by omega)]
  simp
  omega

theorem pySlice_natCast {c d : Nat} (l : List Char) (h1 : c ≤ l.length) (h2 : d ≤ l.length) :
    pySlice (c : Int) (d : Int) l = (l.take d).drop c := by
  unfold pySlice
  rw [sliceIdx_natCast h1, sliceIdx_natCast h2]

theorem wrapSep_joinIndent (ind : Nat) (d : List Char) (ds : List (List Char)) :
    wrapSep ind ++ joinIndent ind (d :: ds) = joinTail ind (d :: ds) := by
  simp [joinIndent, joinTail, List.append_assoc]

/-- Every chunk list produced by `chunksOfK` has exactly `k` elements. -/
theorem chunksOfK_length (W : Nat) : ∀ (k : Nat) (l : List Char),
    (chunksOfK W k l).length = k := by
  intro k
  induction k with
  | zero => intro l; rfl
  | succ k ih => intro l; simp [chunksOfK, ih]

/-- On a message of length exactly `k * W`, every chunk has length `W`. -/
theorem chunksOfK_chunk_len {W : Nat} : ∀ (k : Nat) (l : List Char),
    l.length = k * W → ∀ ch ∈ chunksOfK W k l, ch.length = W := by
  intro k
  induction k with
  | zero => intro l _ ch hch; simp [chunksOfK] at hch
  | succ k ih =>
    intro l hlen ch hch
    have hexp : l.length = k * W + W := by rw [hlen]; ring
    rcases List.mem_cons.mp hch with h | h
    · rw [h]
      simp only [List.length_take]
      omega
    · exact ih (l.drop W) (by simp [hexp]) ch h

/-- The loop of `indent_wrap`, started at index `c` on a message extending
exactly `k` whole chunks beyond `c`, produces those chunks joined by the
continuation separator. -/
theorem indentWrapAux_spec (ind W : Nat) (hW : 0 < W) :
    ∀ (k c fuel : Nat) (msg : List Char), msg.length = c + k * W → k ≤ fuel →
    indentWrapAux (W : Int) ind msg (c : Int) fuel
      = some (joinIndent ind (chunksOfK W k (msg.drop c))) := by
  intro k
  induction k with
  | zero =>
    intro c fuel msg hlen _
    have hguard : ¬((c : Int) < (msg.length : Int)) := by omega
    cases fuel with
    | zero => simp [indentWrapAux, hguard, chunksOfK, joinIndent]
    | succ f => simp [indentWrapAux, hguard, chunksOfK, joinIndent]
  | succ k ih =>
    intro c fuel msg hlen hfuel
    have hexp : msg.length = c + (k * W + W) := by rw [hlen]; ring
    cases fuel with
    | zero => exact absurd hfuel (by omega)
    | succ f =>
      have hWle : c + W ≤ msg.length := by omega
      have hguard : (c : Int) < (msg.length : Int) := by omega
      have hmin : nextIdx (c : Int) (W : Int) msg.length = ((c + W : Nat) : Int) := by
        unfold nextIdx
        rw [min_eq_left (by omega)]
        push_cast
        ring
      have hIH := ih (c + W) f msg (by rw [hlen]; ring) (by omega)
      have hslice : pySlice ((c : Nat) : Int) (((c + W : Nat)) : Int) msg
          = (msg.drop c).take W := by
        rw [pySlice_natCast msg (by omega) hWle, List.drop_take]
        congr 1
        omega
      have hdrop : (msg.drop c).drop W = msg.drop (c + W) := List.drop_drop W c msg
      simp only [indentWrapAux, if_pos hguard, hmin, hIH, hslice]
      have hchunks : chunksOfK W (k + 1) (msg.drop c)
          = (msg.drop c).take W :: chunksOfK W k (msg.drop (c + W)) := by
        rw [chunksOfK, hdrop]
      rcases Nat.eq_zero_or_pos k with hk | hk
      · subst hk
        have hlen' : msg.length = c + W := by simpa using hexp
        have hsep : ¬(((c + W : Nat) : Int) < (msg.length : Int)) := by
          have h1 : ¬(c + W < msg.length) := by omega
          exact_mod_cast h1
        rw [if_neg hsep, hchunks]
        simp [chunksOfK, joinIndent, joinTail]
      · have hpos : 0 < k * W := Nat.mul_pos hk hW
        have hlt : c + W < msg.length := by omega
        have hsep : (((c + W : Nat) : Int) < (msg.length : Int)) := by exact_mod_cast hlt
        rw [if_pos hsep, hchunks]
        have hcons : ∃ d ds, chunksOfK W k (msg.drop (c + W)) = d :: ds := by
          cases hc : chunksOfK W k (msg.drop (c + W)) with
          | nil =>
            have := chunksOfK_length W k (msg.drop (c + W))
            rw [hc] at this
            simp at this
            omega
          | cons d ds => exact ⟨d, ds, rfl⟩
        obtain ⟨d, ds, hc⟩ := hcons
        rw [hc]
        rw [show joinIndent ind ((msg.drop c).take W :: d :: ds)
              = (msg.drop c).take W ++ joinTail ind (d :: ds) from rfl]
        rw [← wrapSep_joinIndent]
        simp [wrapSep, List.append_assoc]

/-- With a positive wrap area the loop terminates within `len - c` iterations. -/
theorem indentWrapAux_total (ind W : Nat) (hW : 0 < W) :
    ∀ (fuel c : Nat) (msg : List Char), msg.length ≤ c + fuel →
    (indentWrapAux (W : Int) ind msg (c : Int) fuel).isSome = true := by
  intro fuel
  induction fuel with
  | zero =>
    intro c msg h
    have hguard : ¬((c : Int) < (msg.length : Int)) := by omega
    simp [indentWrapAux, hguard]
  | succ f ih =>
    intro c msg h
    by_cases hg : (c : Int) < (msg.length : Int)
    · have hcn : c < msg.length := by omega
      have hmin : nextIdx (c : Int) (W : Int) msg.length
          = ((min (c + W) msg.length : Nat) : Int) := by
        unfold nextIdx
        push_cast
        rfl
      have ihh := ih (min (c + W) msg.length) msg (by omega)
      simp only [indentWrapAux, if_pos hg, hmin]
      rcases haux : indentWrapAux (W : Int) ind msg ((min (c + W) msg.length : Nat) : Int) f
        with _ | rest
      · rw [haux] at ihh
        simp at ihh
      · simp
    · simp [indentWrapAux, hg]

/-- With a non-positive wrap area and a nonempty remainder the loop guard
never becomes false: the loop runs forever (the fuel model returns `none`
for every fuel). -/
theorem indentWrapAux_none (ind : Nat) (wa : Int) (hwa : wa ≤ 0) (msg : List Char) :
    ∀ (fuel : Nat) (c : Int), c < (msg.length : Int) →
    indentWrapAux wa ind msg c fuel = none := by
  intro fuel
  induction fuel with
  | zero => intro c hc; simp [indentWrapAux, hc]
  | succ f ih =>
    intro c hc
    have hmin : nextIdx c wa msg.length = c + wa := min_eq_left (by omega)
    have hlt : c + wa < (msg.length : Int) := by omega
    simp only [indentWrapAux, if_pos hc, hmin, ih (c + wa) hlt]

/-- Claim C5: with `W = width - indent ≥ 1` and a message of length exactly
`k * W`, `indent_wrap` returns the `k` chunks of `W` consecutive characters,
in order, each chunk after the first preceded by a newline and `indent`
spaces, with no trailing newline; the empty message (`k = 0`) yields the
empty string. -/
theorem c5_wrap_exactness (msg : List Char) (indent width k : Nat)
    (h : indent < width) (hlen : msg.length = k * (width - indent)) :
    indent_wrap msg indent width (msg.length + 1)
      = some (joinIndent indent (chunksOfK (width - indent) k msg))
    ∧ (chunksOfK (width - indent) k msg).length = k
    ∧ ∀ ch ∈ chunksOfK (width - indent) k msg, ch.length = width - indent := by
  have hW : 0 < width - indent := by omega
  have hk : k ≤ k * (width - indent) := Nat.le_mul_of_pos_right _ hW
  refine ⟨?_, chunksOfK_length _ _ _, chunksOfK_chunk_len _ _ hlen⟩
  unfold indent_wrap
  rw [show ((width : Int) - (indent : Int)) = ((width - indent : Nat) : Int) by omega]
  have := indentWrapAux_spec indent (width - indent) hW k 0 (msg.length + 1) msg
    (by omega) (by omega)
  simpa using this

/-- Witness for C5: a 6-character message, indent 2, width 5 (so `W = 3`,
`k = 2`) wraps to `abc\n  def`. -/
theorem c5_wrap_exactness_witness :
    indent_wrap "abcdef".data 2 5 ("abcdef".data.length + 1)
      = some (joinIndent 2 (chunksOfK 3 2 "abcdef".data))
    ∧ (chunksOfK 3 2 "abcdef".data).length = 2
    ∧ ∀ ch ∈ chunksOfK 3 2 "abcdef".data, ch.length = 3 :=
  c5_wrap_exactness "abcdef".data 2 5 2 (by decide) (by decide)

/-- Claim C10: the `indent_wrap` loop terminates whenever
`width - indent ≥ 1`; when `width - indent ≤ 0` and the message is nonempty
it never terminates (`none` for every fuel).  In the program a matched line's
rendering therefore fails to terminate whenever the terminal width is at most
the header size — 46 columns in brief mode and 46 + 21 = 67 in timestamped
mode — and the message is nonempty. -/
theorem c10_wrap_termination :
    (∀ (msg : List Char) (indent width : Nat), indent < width →
      (indent_wrap msg indent width (msg.length + 1)).isSome = true)
    ∧ (∀ (msg : List Char) (indent width fuel : Nat), width ≤ indent → msg ≠ [] →
      indent_wrap msg indent width fuel = none)
    ∧ HEADER_SIZE = 46 ∧ HEADER_SIZE + TIME_WIDTH = 67
    ∧ (∀ (w : Nat) (ds : DState) (r : ParseRes),
      (assocLookup TAGTYPES r.tagtype).isSome = true →
      w ≤ headerSizeOf r.timeOpt → r.message ≠ [] →
      (processMatch w ds r).2 = StepKind.hang) := by
  have hnone : ∀ (msg : List Char) (indent width fuel : Nat), width ≤ indent → msg ≠ [] →
      indent_wrap msg indent width fuel = none := by
    intro msg indent width fuel hwi hmsg
    have hlen : 0 < msg.length := List.length_pos.mpr hmsg
    exact indentWrapAux_none indent _ (by omega) msg fuel 0 (by omega)
  refine ⟨?_, hnone, rfl, rfl, ?_⟩
  · intro msg indent width h
    have hW : 0 < width - indent := by omega
    unfold indent_wrap
    rw [show ((width : Int) - (indent : Int)) = ((width - indent : Nat) : Int) by omega]
    have := indentWrapAux_total indent (width - indent) hW (msg.length + 1) 0 msg (by omega)
    simpa using this
  · intro w ds r hsome hw hmsg
    obtain ⟨badge, hbadge⟩ := Option.isSome_iff_exists.mp hsome
    simp only [processMatch, hbadge, hnone r.message (headerSizeOf r.timeOpt) w
      (r.message.length + 1) hw hmsg]

/-- Witness for C10: termination at width 5 over indent 2, divergence at
width 3 under indent 5, and a hanging `processMatch` at terminal width 40
(below the 46-column brief header). -/
theorem c10_wrap_termination_witness :
    (indent_wrap "ab".data 2 5 ("ab".data.length + 1)).isSome = true
    ∧ indent_wrap "a".data 5 3 9 = none
    ∧ (processMatch 40 initDriver ⟨none, 'I', "a".data, "1".data, "m".data⟩).2
        = StepKind.hang :=
  ⟨c10_wrap_termination.1 "ab".data 2 5 (by decide),
   c10_wrap_termination.2.1 "a".data 5 3 9 (by decide) (by decide),
   c10_wrap_termination.2.2.2.2 40 initDriver ⟨none, 'I', "a".data, "1".data, "m".data⟩
     (by decide) (by decide) (by decide)⟩

/-! ## Lemmas about the stream driver -/

/-- `processMatch` never changes the mode flag. -/
theorem processMatch_flag (w : Nat) (ds : DState) (r : ParseRes) :
    ((processMatch w ds r).1).timeOutputted = ds.timeOutputted := by
  unfold processMatch
  cases h1 : assocLookup TAGTYPES r.tagtype with
  | none => rfl
  | some badge =>
    cases h2 : indent_wrap r.message (headerSizeOf r.timeOpt) w (r.message.length + 1) with
    | none => rfl
    | some wrapped => rfl

/-- `processMatch` increments the line number exactly once, in every branch:
before the severity lookup, so also when the run stops on an unknown
severity, and before the wrap, so also when the wrap diverges. -/
theorem processMatch_linenumber (w : Nat) (ds : DState) (r : ParseRes) :
    ((processMatch w ds r).1).linenumber = ds.linenumber + 1 := by
  unfold processMatch
  cases h1 : assocLookup TAGTYPES r.tagtype with
  | none => rfl
  | some badge =>
    cases h2 : indent_wrap r.message (headerSizeOf r.timeOpt) w (r.message.length + 1) with
    | none => rfl
    | some wrapped => rfl

/-- When neither pattern matches, the mode flag is left unchanged. -/
theorem parseLine_none_flag {b : Bool} {line : List Char}
    (h : (parseLine b line).2 = none) : (parseLine b line).1 = b := by
  cases b with
  | true => rfl
  | false =>
    simp only [parseLine] at h ⊢
    cases h1 : matchBrief line with
    | some g => simp [h1] at h
    | none =>
      simp only [h1] at h ⊢
      cases h2 : matchTime line with
      | some g => simp [h2] at h
      | none => simp [h2]

/-- A prefix that runs to completion composes with the remaining input. -/
theorem runDriver_append (w : Nat) : ∀ (pre : List (List Char)) (ds : DState)
    (outs : List (List Char)) (ds' : DState),
    runDriver w ds pre = (outs, RunEnd.ranOut ds') →
    ∀ rest, runDriver w ds (pre ++ rest)
      = (outs ++ (runDriver w ds' rest).1, (runDriver w ds' rest).2) := by
  intro pre
  induction pre with
  | nil =>
    intro ds outs ds' h rest
    simp only [runDriver, Prod.mk.injEq] at h
    obtain ⟨h1, h2⟩ := h
    cases h2
    subst h1
    simp
  | cons l ls ih =>
    intro ds outs ds' h rest
    rcases hstep : step w ds l with ⟨ds2, k⟩
    cases k with
    | contOut o =>
      have hl : runDriver w ds (l :: ls)
          = (o :: (runDriver w ds2 ls).1, (runDriver w ds2 ls).2) := by
        rw [runDriver, hstep]
      have hl' : runDriver w ds (l :: (ls ++ rest))
          = (o :: (runDriver w ds2 (ls ++ rest)).1, (runDriver w ds2 (ls ++ rest)).2) := by
        rw [runDriver, hstep]
      rw [hl] at h
      rcases hrun : runDriver w ds2 ls with ⟨os, e⟩
      rw [hrun] at h
      simp only [Prod.mk.injEq] at h
      obtain ⟨h1, h2⟩ := h
      subst h1
      rw [List.cons_append, hl', ih ds2 os ds' (by rw [hrun, h2]) rest]
      simp
    | stopOut o =>
      have hl : runDriver w ds (l :: ls) = ([o], RunEnd.stopped ds2) := by
        rw [runDriver, hstep]
      rw [hl] at h
      simp only [Prod.mk.injEq] at h
      exact absurd h.2 (by simp)
    | stopSilent =>
      have hl : runDriver w ds (l :: ls) = ([], RunEnd.stopped ds2) := by
        rw [runDriver, hstep]
      rw [hl] at h
      simp only [Prod.mk.injEq] at h
      exact absurd h.2 (by simp)
    | hang =>
      have hl : runDriver w ds (l :: ls) = ([], RunEnd.hung ds2) := by
        rw [runDriver, hstep]
      rw [hl] at h
      simp only [Prod.mk.injEq] at h
      exact absurd h.2 (by simp)

/-- Claim C7: a line that matches a record shape but carries a severity
letter outside `TAGTYPES` produces no output, suppresses all later lines,
and stops the run; everything written for the preceding lines is kept
unchanged. -/
theorem c7_unknown_severity_stops (w : Nat) (ds : DState) (pre post : List (List Char))
    (badline : List Char) (outs : List (List Char)) (ds' : DState) (r : ParseRes)
    (hpre : runDriver w ds pre = (outs, RunEnd.ranOut ds'))
    (hmatch : (parseLine ds'.timeOutputted badline).2 = some r)
    (hsev : assocLookup TAGTYPES r.tagtype = none) :
    runDriver w ds (pre ++ badline :: post)
      = (outs, RunEnd.stopped (step w ds' badline).1) := by
  have h2 : (step w ds' badline).2 = StepKind.stopSilent := by
    simp only [step, hmatch]
    unfold processMatch
    rw [hsev]
  rcases hs : step w ds' badline with ⟨ds2, k⟩
  rw [hs] at h2
  have h3 : k = StepKind.stopSilent := h2
  subst h3
  have hrun : runDriver w ds' (badline :: post) = ([], RunEnd.stopped ds2) := by
    rw [runDriver, hs]
  rw [runDriver_append w pre ds outs ds' hpre (badline :: post), hrun]
  simp

/-- Witness for C7: the spec's own example `Z/Foo(1): bar` followed by a
well-formed line yields no output at all and a stopped run. -/
theorem c7_unknown_severity_stops_witness :
    runDriver 80 initDriver ([] ++ "Z/Foo(1): bar".data :: ["I/a(1): m".data])
      = ([], RunEnd.stopped (step 80 initDriver "Z/Foo(1): bar".data).1) :=
  c7_unknown_severity_stops 80 initDriver [] ["I/a(1): m".data] "Z/Foo(1): bar".data []
    initDriver ⟨none, 'Z', "Foo".data, "1".data, "bar".data⟩ rfl (by decide) (by decide)

/-- Claim C8: `linenumber` starts at 1; a line matching a record shape
increments it exactly once — also when the rendering then fails on an
unknown severity or hangs in the wrap — and a line matching neither shape
leaves it unchanged. -/
theorem c8_linenumber :
    initDriver.linenumber = 1
    ∧ (∀ (w : Nat) (ds : DState) (line : List Char),
        ((parseLine ds.timeOutputted line).2).isSome = true →
        ((step w ds line).1).linenumber = ds.linenumber + 1)
    ∧ (∀ (w : Nat) (ds : DState) (line : List Char),
        (parseLine ds.timeOutputted line).2 = none →
        ((step w ds line).1).linenumber = ds.linenumber) := by
  refine ⟨rfl, ?_, ?_⟩
  · intro w ds line h
    obtain ⟨r, hr⟩ := Option.isSome_iff_exists.mp h
    simp only [step, hr]
    rw [processMatch_linenumber]
  · intro w ds line h
    simp only [step, h]

/-- Witness for C8: a matched line advances the counter from 1 to 2, an
unmatched line leaves it at 1. -/
theorem c8_linenumber_witness :
    ((step 80 initDriver "I/a(1): m".data).1).linenumber = initDriver.linenumber + 1
    ∧ ((step 80 initDriver "junk".data).1).linenumber = initDriver.linenumber :=
  ⟨c8_linenumber.2.1 80 initDriver "I/a(1): m".data (by decide),
   c8_linenumber.2.2 80 initDriver "junk".data (by decide)⟩

/-- Claim C9 counterexample: an unmatched line is NOT written back byte for
byte.  `readline` keeps the line's own newline and the `print` statement
appends another one, so the unmatched line `"hello\n"` is emitted as
`"hello\n\n"`. -/
theorem c9_passthrough_counterexample :
    (runDriver 80 initDriver ["hello\n".data]).1 = ["hello\n\n".data]
    ∧ "hello\n\n".data ≠ "hello\n".data :=
  ⟨by decide, by decide⟩

/-- Claim C9, amended: for a line matching neither shape the driver state is
unchanged and the bytes written are exactly the line as read followed by the
one newline `print` appends (so a line that arrived with its own terminating
newline gains an extra blank line); the loop then stops iff the line was
empty. -/
theorem c9_passthrough_amended (w : Nat) (ds : DState) (line : List Char)
    (h : (parseLine ds.timeOutputted line).2 = none) :
    step w ds line
      = (ds, if line = [] then StepKind.stopOut (line ++ ['\n'])
             else StepKind.contOut (line ++ ['\n'])) := by
  simp only [step, h, parseLine_none_flag h]

/-- Witness for the amended C9 at a concrete unmatched line. -/
theorem c9_passthrough_amended_witness :
    step 80 initDriver "junk\n".data
      = (initDriver,
         if ("junk\n".data : List Char) = [] then StepKind.stopOut ("junk\n".data ++ ['\n'])
         else StepKind.contOut ("junk\n".data ++ ['\n'])) :=
  c9_passthrough_amended 80 initDriver "junk\n".data (by decide)

/-- Claim C6: the format-mode switch is sticky and one-way.  In brief mode a
line that fails the brief pattern but matches the timestamped one flips the
flag, and that switch-triggering line is itself processed in the switched
state with its time group (the flag is set at line 160 before the rendering
block, so the `TIME_WIDTH`-padded time field is emitted for it); once the
flag is true it stays true on every subsequent line; a line matched in brief
mode is processed with no time group (`timeOpt = none`, so `timeFieldOf`
contributes nothing) and a line matched after the switch is processed with
its time group. -/
theorem c6_sticky_mode :
    (∀ (w : Nat) (ds : DState) (line : List Char)
        (r : List Char × Char × List Char × List Char × List Char),
      ds.timeOutputted = false → matchBrief line = none → matchTime line = some r →
      ((step w ds line).1).timeOutputted = true)
    ∧ (∀ (w : Nat) (ds : DState) (line : List Char) (t : List Char) (sv : Char)
        (tg ow ms : List Char),
      ds.timeOutputted = false → matchBrief line = none →
      matchTime line = some (t, sv, tg, ow, ms) →
      step w ds line
        = processMatch w { ds with timeOutputted := true } ⟨some t, sv, tg, ow, ms⟩)
    ∧ (∀ (w : Nat) (ds : DState) (line : List Char), ds.timeOutputted = true →
      ((step w ds line).1).timeOutputted = true)
    ∧ (∀ (w : Nat) (ds : DState) (line : List Char) (sv : Char) (tg ow ms : List Char),
      ds.timeOutputted = false → matchBrief line = some (sv, tg, ow, ms) →
      step w ds line = processMatch w ds ⟨none, sv, tg, ow, ms⟩)
    ∧ (∀ (w : Nat) (ds : DState) (line : List Char) (t : List Char) (sv : Char)
        (tg ow ms : List Char),
      ds.timeOutputted = true → matchTime line = some (t, sv, tg, ow, ms) →
      step w ds line = processMatch w ds ⟨some t, sv, tg, ow, ms⟩)
    ∧ timeFieldOf none = []
    ∧ (∀ t : List Char, (timeFieldOf (some t)).length = max TIME_WIDTH (t.length + 3)) := by
  refine ⟨?_, ?_, ?_, ?_, ?_, rfl, ?_⟩
  · intro w ds line r hfl hbrief htime
    have hp : parseLine ds.timeOutputted line
        = (true, some ⟨some r.1, r.2.1, r.2.2.1, r.2.2.2.1, r.2.2.2.2⟩) := by
      rw [hfl]
      simp [parseLine, hbrief, htime]
    simp only [step, hp]
    rw [processMatch_flag]
  · intro w ds line t sv tg ow ms hfl hbrief htime
    have hp : parseLine ds.timeOutputted line = (true, some ⟨some t, sv, tg, ow, ms⟩) := by
      rw [hfl]
      simp [parseLine, hbrief, htime]
    simp only [step, hp]
  · intro w ds line htrue
    simp only [step, htrue, parseLine]
    cases hmt : matchTime line with
    | none => simp [hmt]
    | some g => simp [hmt, processMatch_flag]
  · intro w ds line sv tg ow ms hfl hbrief
    have hp : parseLine ds.timeOutputted line = (false, some ⟨none, sv, tg, ow, ms⟩) := by
      rw [hfl]
      simp [parseLine, hbrief]
    have hds : ({ ds with timeOutputted := false } : DState) = ds := by
      cases ds with
      | mk a b c =>
        have ha : a = false := hfl
        subst ha
        rfl
    simp only [step, hp, hds]
  · intro w ds line t sv tg ow ms htrue hmt
    have hp : parseLine ds.timeOutputted line = (true, some ⟨some t, sv, tg, ow, ms⟩) := by
      rw [htrue]
      simp [parseLine, hmt]
    have hds : ({ ds with timeOutputted := true } : DState) = ds := by
      cases ds with
      | mk a b c =>
        have ha : a = true := htrue
        subst ha
        rfl
    simp only [step, hp, hds]
  · intro t
    simp [timeFieldOf, pyLjust, TIME_WIDTH]
    omega

/-- Witness for C6: a timestamped line flips the mode from brief and is
itself processed in the switched state with its time group; a brief line in
brief mode is processed without a time group; a timestamped line in time
mode is processed with one. -/
theorem c6_sticky_mode_witness :
    ((step 80 initDriver "0 I/a(1): m".data).1).timeOutputted = true
    ∧ step 80 initDriver "0 I/a(1): m".data
        = processMatch 80 { initDriver with timeOutputted := true }
            ⟨some "0".data, 'I', "a".data, "1".data, "m".data⟩
    ∧ step 80 initDriver "I/a(1): m".data
        = processMatch 80 initDriver ⟨none, 'I', "a".data, "1".data, "m".data⟩
    ∧ step 80 ⟨true, 1, initPalette⟩ "0 I/a(1): m".data
        = processMatch 80 ⟨true, 1, initPalette⟩
            ⟨some "0".data, 'I', "a".data, "1".data, "m".data⟩ :=
  ⟨c6_sticky_mode.1 80 initDriver "0 I/a(1): m".data
      ("0".data, 'I', "a".data, "1".data, "m".data) rfl (by decide) (by decide),
   c6_sticky_mode.2.1 80 initDriver "0 I/a(1): m".data
      "0".data 'I' "a".data "1".data "m".data rfl (by decide) (by decide),
   c6_sticky_mode.2.2.2.1 80 initDriver "I/a(1): m".data 'I' "a".data "1".data "m".data
      rfl (by decide),
   c6_sticky_mode.2.2.2.2.1 80 ⟨true, 1, initPalette⟩ "0 I/a(1): m".data
      "0".data 'I' "a".data "1".data "m".data rfl (by decide)⟩

end ColoredLogcat
